import Mathlib

/-!
Shallow embedding of the fleetmux liveness/acquisition core
(src/model.rs, src/ssh.rs, src/tmux.rs).

Conventions:
- Rust `Instant` / `Duration` are modelled as `Nat` milliseconds; `Instant`
  subtraction (`duration_since`, `elapsed`) saturates at zero in Rust and is
  modelled by truncated `Nat` subtraction.
- Rust `u64` arithmetic (`wrapping_mul` in the FNV hash, `saturating_mul` in
  the staleness sweep) is modelled on `Nat` with explicit `% 2^64` / `min`.
- Text that the code processes byte-wise (captures, tmux list output) is
  modelled as `List Nat` of UTF-8 byte values; `str::lines` and
  `str::split('\t')` are modelled byte-wise (`rustLines`, `splitTab`).
- The ssh reachability probe is an oracle parameter `reachable : String → Bool`;
  `resolve_target` additionally records which targets it probed, in order.
-/

/-- `2^64`, the modulus of Rust `u64` arithmetic. -/
def U64 : Nat := 2 ^ 64

/-- The FNV-1a 64-bit prime `0x100000001b3` (src/model.rs `hash_capture`). -/
def fnvPrime : Nat := 0x100000001b3

/-- The FNV-1a 64-bit offset basis `0xcbf29ce484222325`. -/
def fnvBasis : Nat := 0xcbf29ce484222325

/-- One FNV-1a step: `hash ^= byte; hash = hash.wrapping_mul(prime)`. -/
def fnvStep (h b : Nat) : Nat := ((h ^^^ b) * fnvPrime) % U64

/-- Fold FNV-1a steps over a byte list. -/
def fnvBytes (h : Nat) (bs : List Nat) : Nat := bs.foldl fnvStep h

/-- src/model.rs `PaneCapture`: command, title, visible lines (as byte lists). -/
structure PaneCapture where
  command : List Nat
  title : List Nat
  lines : List (List Nat)
deriving Repr, DecidableEq

/-- src/model.rs `hash_capture`: FNV-1a over each line's bytes followed by a
`'\n'` byte (10), then the command's bytes.  The title is not hashed. -/
def hash_capture (capture : PaneCapture) : Nat :=
  let h := capture.lines.foldl (fun h line => fnvStep (fnvBytes h line) 10) fnvBasis
  fnvBytes h capture.command

/-- src/model.rs `PaneStatus`. -/
inductive PaneStatus where
  | Ok
  | Down
  | Stale
deriving Repr, DecidableEq

/-- src/model.rs `ActivityState`. -/
inductive ActivityState where
  | Active
  | Idle
  | Quiet
deriving Repr, DecidableEq

/-- src/config.rs `TrackedPane`. -/
structure TrackedPane where
  host : String
  session : String
  window : Nat
  pane_id : String
  label : Option String
deriving Repr, DecidableEq

/-- src/model.rs free function `activity_state(last_change, active_window,
idle_after)`; `last.elapsed()` is modelled as `now - last`. -/
def activity_state (last_change : Option Nat) (now active_window idle_after : Nat) :
    ActivityState :=
  match last_change with
  | none => ActivityState.Quiet
  | some last =>
    let age := now - last
    if age ≤ active_window then ActivityState.Active
    else if age ≥ idle_after then ActivityState.Idle
    else ActivityState.Quiet

/-- src/model.rs `PaneUpdate`. -/
structure PaneUpdate where
  index : Nat
  capture : Option PaneCapture
  status : PaneStatus
  error : Option String
  at' : Nat
deriving Repr, DecidableEq

/-- src/model.rs `PaneState`. -/
structure PaneState where
  tracked : TrackedPane
  status : PaneStatus
  last_capture : Option PaneCapture
  last_update : Option Nat
  last_change : Option Nat
  error : Option String
  last_hash : Option Nat
deriving Repr, DecidableEq

/-- src/model.rs `PaneState::activity_state`. -/
def PaneState.activityState (p : PaneState) (now active_window idle_after : Nat) :
    ActivityState :=
  if p.status ≠ PaneStatus.Ok then ActivityState.Quiet
  else activity_state p.last_change now active_window idle_after

/-- src/model.rs `AppState`, restricted to the fields `apply_update` and
`refresh_stale` touch: the pane vector and `config.ui.refresh_ms` (the UI-only
fields — focus, colors, help/zoom flags, attention — are never read or written
by those two methods). -/
structure AppState where
  panes : List PaneState
  refresh_ms : Nat
deriving Repr, DecidableEq

/-- The body of src/model.rs `AppState::apply_update` acting on the pane found
at `update.index`: set status/error/last_update, then, when a capture is
present, detect change by fingerprint and replace fingerprint and capture. -/
def applyToPane (pane : PaneState) (update : PaneUpdate) : PaneState :=
  let pane := { pane with
    status := update.status
    error := update.error
    last_update := some update.at' }
  match update.capture with
  | none => pane
  | some capture =>
    let new_hash := hash_capture capture
    let changed : Bool :=
      match pane.last_hash with
      | some h => h != new_hash
      | none => true
    let pane := if changed then { pane with last_change := some update.at' } else pane
    { pane with last_hash := some new_hash, last_capture := some capture }

/-- src/model.rs `AppState::apply_update`: `panes.get_mut(update.index)` is a
no-op when the index is out of range. -/
def apply_update (s : AppState) (update : PaneUpdate) : AppState :=
  match s.panes[update.index]? with
  | none => s
  | some pane => { s with panes := s.panes.set update.index (applyToPane pane update) }

/-- src/model.rs `AppState::refresh_stale`; `Instant::now()` is the explicit
`now` argument and `refresh_ms.saturating_mul(2)` is `min (refresh_ms * 2)
(U64 - 1)`. -/
def refresh_stale (s : AppState) (now : Nat) : AppState :=
  let stale_after := min (s.refresh_ms * 2) (U64 - 1)
  { s with panes := s.panes.map (fun pane =>
      if pane.status = PaneStatus.Down then pane
      else
        match pane.last_update with
        | some last =>
          if now - last > stale_after then { pane with status := PaneStatus.Stale }
          else { pane with status := PaneStatus.Ok }
        | none => { pane with status := PaneStatus.Stale }) }

/-! ## Host resolution (src/ssh.rs) -/

/-- src/ssh.rs `CacheEntry`. -/
structure CacheEntry where
  target : String
  checked_at : Nat
deriving Repr, DecidableEq

/-- src/ssh.rs `HostResolver.cache : HashMap<String, CacheEntry>`, modelled as
an association list with unique keys maintained by `cacheInsert`. -/
abbrev Cache := List (String × CacheEntry)

/-- `HashMap::get`. -/
def cacheGet (c : Cache) (k : String) : Option CacheEntry :=
  (c.find? (fun e => e.1 == k)).map (·.2)

/-- `HashMap::insert` (replace any existing entry for the key). -/
def cacheInsert (c : Cache) (k : String) (v : CacheEntry) : Cache :=
  (k, v) :: c.filter (fun e => e.1 != k)

/-- src/ssh.rs `CACHE_TTL = Duration::from_secs(60)`, in milliseconds. -/
def CACHE_TTL : Nat := 60000

/-- src/config.rs `HostConfig`, restricted to the fields `resolve_target`
reads: the unique name and the ordered candidate target list. -/
structure HostConfig where
  name : String
  targets : List String
deriving Repr, DecidableEq

/-- Result of a resolve call: the returned value, the cache afterwards, and
the list of targets that were probed, in probe order (instrumentation of the
`test_target` calls). -/
structure ResolveOutcome where
  result : Except String String
  cache : Cache
  probed : List String
deriving Repr

/-- The `for target in &host.targets` loop of src/ssh.rs
`HostResolver::resolve_target`: probe candidates in declared order; on the
first success insert `(target, now)` into the cache and return the target; if
none succeeds, fail and leave the cache untouched. -/
def resolveLoop (name : String) (targets : List String) (reachable : String → Bool)
    (now : Nat) (cache : Cache) : ResolveOutcome :=
  match targets with
  | [] => ⟨Except.error ("No reachable targets for host " ++ name), cache, []⟩
  | t :: rest =>
    if reachable t then
      ⟨Except.ok t, cacheInsert cache name ⟨t, now⟩, [t]⟩
    else
      let r := resolveLoop name rest reachable now cache
      ⟨r.result, r.cache, t :: r.probed⟩

/-- src/ssh.rs `HostResolver::resolve_target`: a cache entry younger than the
TTL is returned without probing; otherwise the candidate loop runs. -/
def resolve_target (cache : Cache) (host : HostConfig) (reachable : String → Bool)
    (now : Nat) : ResolveOutcome :=
  match cacheGet cache host.name with
  | some entry =>
    if now - entry.checked_at < CACHE_TTL then ⟨Except.ok entry.target, cache, []⟩
    else resolveLoop host.name host.targets reachable now cache
  | none => resolveLoop host.name host.targets reachable now cache

/-! ## Capture and list parsing (src/tmux.rs) -/

/-- Split a byte list at `'\n'` (10), keeping every (possibly empty) piece:
the byte-level model of Rust `str::split('\n')`. -/
def splitNl (bs : List Nat) : List (List Nat) :=
  bs.foldr (fun b acc => if b = 10 then [] :: acc else (b :: acc.headD []) :: acc.tail) [[]]

/-- Split a byte list at `'\t'` (9): the byte-level model of Rust
`str::split('\t')`. -/
def splitTab (bs : List Nat) : List (List Nat) :=
  bs.foldr (fun b acc => if b = 9 then [] :: acc else (b :: acc.headD []) :: acc.tail) [[]]

/-- Remove one trailing `'\r'` (13), as Rust `lines()` does on each
`'\n'`-terminated line. -/
def stripCr (l : List Nat) : List Nat :=
  if l.getLast? = some 13 then l.dropLast else l

/-- Byte-level model of Rust `str::lines()`: split at `'\n'`; the final piece
is dropped when empty (trailing terminator) and kept verbatim otherwise (it was
not `'\n'`-terminated); every `'\n'`-terminated piece has one trailing `'\r'`
removed. -/
def rustLines (bs : List Nat) : List (List Nat) :=
  let parts := splitNl bs
  match parts.getLast? with
  | some [] => parts.dropLast.map stripCr
  | some l => parts.dropLast.map stripCr ++ [l]
  | none => []

/-- src/tmux.rs `parse_capture`: the first line's first two tab fields become
command and title (missing fields default to empty); all remaining lines are
the capture body.  (The Rust function returns `Result` but never errs.) -/
def parse_capture (output : List Nat) : PaneCapture :=
  let ls := rustLines output
  let header := ls.headD []
  let parts := splitTab header
  { command := parts.headD []
    title := (parts.drop 1).headD []
    lines := ls.drop 1 }

/-- Rust `str::parse::<u32>()` on a byte list: optional leading `'+'` (43),
then one or more ASCII digits, value below `2^32`; anything else fails. -/
def parseU32 (bs : List Nat) : Option Nat :=
  let digits := match bs with
    | 43 :: rest => rest
    | _ => bs
  if digits = [] then none
  else if digits.all (fun b => 48 ≤ b ∧ b ≤ 57) then
    let v := digits.foldl (fun acc b => acc * 10 + (b - 48)) 0
    if v < 2 ^ 32 then some v else none
  else none

/-- src/tmux.rs `PaneInfo`. -/
structure PaneInfo where
  session : List Nat
  window : Nat
  pane_id : List Nat
  command : List Nat
  title : List Nat
deriving Repr, DecidableEq

/-- src/tmux.rs `WindowInfo`. -/
structure WindowInfo where
  session : List Nat
  window : Nat
  name : List Nat
deriving Repr, DecidableEq

/-- One iteration of the src/tmux.rs `parse_pane_list` loop: `none` exactly
when the loop hits a `continue` (empty session, unparsable window index, or
empty pane id). -/
def parsePaneLine (line : List Nat) : Option PaneInfo :=
  let parts := splitTab line
  match parts[0]? with
  | none => none
  | some session =>
    if session = [] then none
    else
      match (parts[1]?).bind parseU32 with
      | none => none
      | some window =>
        match parts[2]? with
        | none => none
        | some paneId =>
          if paneId = [] then none
          else
            some ⟨session, window, paneId, (parts[3]?).getD [], (parts[4]?).getD []⟩

/-- One iteration of the src/tmux.rs `parse_window_list` loop. -/
def parseWindowLine (line : List Nat) : Option WindowInfo :=
  let parts := splitTab line
  match parts[0]? with
  | none => none
  | some session =>
    if session = [] then none
    else
      match (parts[1]?).bind parseU32 with
      | none => none
      | some window =>
        some ⟨session, window, (parts[2]?).getD []⟩

/-- src/tmux.rs `parse_pane_list`: fold the per-line parse over the output's
lines, dropping malformed lines. -/
def parse_pane_list (output : List Nat) : List PaneInfo :=
  (rustLines output).filterMap parsePaneLine

/-- src/tmux.rs `parse_window_list`. -/
def parse_window_list (output : List Nat) : List WindowInfo :=
  (rustLines output).filterMap parseWindowLine

/-- Join lines into a wire text in which every line is `'\n'`-terminated, as
tmux emits them. -/
def linesJoin (ls : List (List Nat)) : List Nat :=
  (ls.map (fun l => l ++ [10])).flatten

/-! ## FNV-1a hash lemmas -/

lemma U64_pos : 0 < U64 := by norm_num [U64]

lemma lt_U64_of_lt_256 {x : Nat} (h : x < 256) : x < U64 := by
  have : (256 : Nat) < U64 := by norm_num [U64]
  omega

lemma fnvStep_lt (h b : Nat) : fnvStep h b < U64 := Nat.mod_lt _ U64_pos

lemma fnvBasis_lt : fnvBasis < U64 := by norm_num [fnvBasis, U64]

lemma coprime_U64_fnvPrime : Nat.gcd U64 fnvPrime = 1 := by decide

lemma xor_lt_U64 {x y : Nat} (hx : x < U64) (hy : y < U64) : x ^^^ y < U64 := by
  have := Nat.xor_lt_two_pow (n := 64) (x := x) (y := y)
  simp only [U64] at hx hy ⊢
  exact this hx hy

lemma fnvStep_inj {b h1 h2 : Nat} (hb : b < U64) (h1lt : h1 < U64) (h2lt : h2 < U64)
    (hne : h1 ≠ h2) : fnvStep h1 b ≠ fnvStep h2 b := by
  intro heq
  have heq' : (h1 ^^^ b) * fnvPrime ≡ (h2 ^^^ b) * fnvPrime [MOD U64] := heq
  have hcan := Nat.ModEq.cancel_right_of_coprime coprime_U64_fnvPrime heq'
  have e1 : (h1 ^^^ b) % U64 = h1 ^^^ b := Nat.mod_eq_of_lt (xor_lt_U64 h1lt hb)
  have e2 : (h2 ^^^ b) % U64 = h2 ^^^ b := Nat.mod_eq_of_lt (xor_lt_U64 h2lt hb)
  have hx : h1 ^^^ b = h2 ^^^ b := by
    have := hcan
    unfold Nat.ModEq at this
    rw [e1, e2] at this
    exact this
  apply hne
  have := congrArg (fun z => z ^^^ b) hx
  simpa [Nat.xor_cancel_right] using this

lemma fnvBytes_nil (h : Nat) : fnvBytes h [] = h := rfl

lemma fnvBytes_cons (h b : Nat) (bs : List Nat) :
    fnvBytes h (b :: bs) = fnvBytes (fnvStep h b) bs := rfl

lemma fnvBytes_append (h : Nat) (l1 l2 : List Nat) :
    fnvBytes h (l1 ++ l2) = fnvBytes (fnvBytes h l1) l2 :=
  List.foldl_append _ _ _ _

lemma fnvBytes_lt {h : Nat} (hlt : h < U64) (bs : List Nat) : fnvBytes h bs < U64 := by
  induction bs generalizing h with
  | nil => exact hlt
  | cons b bs ih => exact ih (fnvStep_lt h b)

lemma fnvBytes_inj {bs : List Nat} (hbs : ∀ b ∈ bs, b < U64) :
    ∀ {h1 h2 : Nat}, h1 < U64 → h2 < U64 → h1 ≠ h2 →
      fnvBytes h1 bs ≠ fnvBytes h2 bs := by
  induction bs with
  | nil => intro h1 h2 _ _ hne; exact hne
  | cons b bs ih =>
    intro h1 h2 h1lt h2lt hne
    have hb : b < U64 := hbs b (List.mem_cons_self b bs)
    have hbs' : ∀ x ∈ bs, x < U64 := fun x hx => hbs x (List.mem_cons_of_mem b hx)
    rw [fnvBytes_cons, fnvBytes_cons]
    exact ih hbs' (fnvStep_lt h1 b) (fnvStep_lt h2 b) (fnvStep_inj hb h1lt h2lt hne)

lemma fnvBytes_linesJoin (h : Nat) (ls : List (List Nat)) :
    fnvBytes h (linesJoin ls) = ls.foldl (fun h line => fnvStep (fnvBytes h line) 10) h := by
  induction ls generalizing h with
  | nil => rfl
  | cons l ls ih =>
    have hj : linesJoin (l :: ls) = (l ++ [10]) ++ linesJoin ls := by
      simp [linesJoin]
    rw [hj, fnvBytes_append, ih]
    have hsingle : fnvBytes h (l ++ [10]) = fnvStep (fnvBytes h l) 10 := by
      rw [fnvBytes_append]; rfl
    rw [hsingle]
    rfl

/-- `hash_capture` equals one FNV-1a pass over the concatenated byte stream:
every line followed by a newline byte, then the command bytes. -/
lemma hash_capture_stream (c : PaneCapture) :
    hash_capture c = fnvBytes fnvBasis (linesJoin c.lines ++ c.command) := by
  unfold hash_capture
  rw [fnvBytes_append, fnvBytes_linesJoin]

/-- `hash_capture` reads only the command and the lines, never the title. -/
lemma hash_capture_congr {c c' : PaneCapture} (h1 : c.command = c'.command)
    (h2 : c.lines = c'.lines) : hash_capture c = hash_capture c' := by
  unfold hash_capture
  rw [h1, h2]

/-- With the same state but distinct fed bytes, one FNV-1a step already
separates the hashes. -/
lemma fnvStep_inj_byte {h b b' : Nat} (hb : b < U64) (hb' : b' < U64) (hh : h < U64)
    (hne : b ≠ b') : fnvStep h b ≠ fnvStep h b' := by
  intro heq
  have heq' : (h ^^^ b) * fnvPrime ≡ (h ^^^ b') * fnvPrime [MOD U64] := heq
  have hcan := Nat.ModEq.cancel_right_of_coprime coprime_U64_fnvPrime heq'
  have e1 : (h ^^^ b) % U64 = h ^^^ b := Nat.mod_eq_of_lt (xor_lt_U64 hh hb)
  have e2 : (h ^^^ b') % U64 = h ^^^ b' := Nat.mod_eq_of_lt (xor_lt_U64 hh hb')
  have hx : h ^^^ b = h ^^^ b' := by
    have hmm := hcan
    unfold Nat.ModEq at hmm
    rw [e1, e2] at hmm
    exact hmm
  apply hne
  have := congrArg (fun z => h ^^^ z) hx
  simpa [Nat.xor_cancel_left] using this

/-- Two FNV-1a passes over byte streams that differ in exactly one position
give different results. -/
lemma fnvBytes_single_byte_ne {P S : List Nat} {b b' : Nat} (hb : b < U64) (hb' : b' < U64)
    (hne : b ≠ b') (hS : ∀ x ∈ S, x < U64) {h0 : Nat} (h0lt : h0 < U64) :
    fnvBytes h0 (P ++ b :: S) ≠ fnvBytes h0 (P ++ b' :: S) := by
  rw [fnvBytes_append, fnvBytes_append, fnvBytes_cons, fnvBytes_cons]
  exact fnvBytes_inj hS (fnvStep_lt _ _) (fnvStep_lt _ _)
    (fnvStep_inj_byte hb hb' (fnvBytes_lt h0lt _) hne)

/-- C4: the content fingerprint is a deterministic pure function of the
capture: captures with identical command and identical line sequences have
equal fingerprints, and changing a single byte of a single line (everything
else equal) always changes the fingerprint. -/
theorem fingerprint_deterministic_byte_sensitive :
    (∀ c c' : PaneCapture, c.command = c'.command → c.lines = c'.lines →
      hash_capture c = hash_capture c') ∧
    (∀ (cmd t t' p s : List Nat) (L1 L2 : List (List Nat)) (b b' : Nat),
      b < 256 → b' < 256 → b ≠ b' →
      (∀ x ∈ s, x < 256) → (∀ l ∈ L2, ∀ x ∈ l, x < 256) → (∀ x ∈ cmd, x < 256) →
      hash_capture ⟨cmd, t, L1 ++ (p ++ b :: s) :: L2⟩ ≠
        hash_capture ⟨cmd, t', L1 ++ (p ++ b' :: s) :: L2⟩) := by
  constructor
  · exact fun c c' h1 h2 => hash_capture_congr h1 h2
  · intro cmd t t' p s L1 L2 b b' hb hb' hne hs hL2 hcmd
    rw [hash_capture_stream, hash_capture_stream]
    simp only
    have hstream : ∀ bb : Nat,
        linesJoin (L1 ++ (p ++ bb :: s) :: L2) ++ cmd =
          (linesJoin L1 ++ p) ++ bb :: (s ++ 10 :: (linesJoin L2 ++ cmd)) := by
      intro bb
      simp [linesJoin, List.flatten_append, List.append_assoc]
    rw [hstream b, hstream b']
    have hS : ∀ x ∈ s ++ 10 :: (linesJoin L2 ++ cmd), x < U64 := by
      intro x hx
      rcases List.mem_append.mp hx with hxs | hxr
      · exact lt_U64_of_lt_256 (hs x hxs)
      · rcases List.mem_cons.mp hxr with hten | hxr
        · subst hten; exact lt_U64_of_lt_256 (by norm_num)
        · rcases List.mem_append.mp hxr with hxj | hxc
          · simp only [linesJoin, List.mem_flatten, List.mem_map] at hxj
            rcases hxj with ⟨chunk, ⟨l2, hl2, rfl⟩, hxchunk⟩
            rcases List.mem_append.mp hxchunk with hxl | hx10
            · exact lt_U64_of_lt_256 (hL2 l2 hl2 x hxl)
            · have : x = 10 := List.mem_singleton.mp hx10
              subst this; exact lt_U64_of_lt_256 (by norm_num)
          · exact lt_U64_of_lt_256 (hcmd x hxc)
    exact fnvBytes_single_byte_ne (lt_U64_of_lt_256 hb) (lt_U64_of_lt_256 hb') hne hS
      fnvBasis_lt

/-- C4 witness. -/
theorem fingerprint_deterministic_byte_sensitive_witness :
    hash_capture ⟨[108], [1], [[104]]⟩ = hash_capture ⟨[108], [2], [[104]]⟩ ∧
    hash_capture ⟨[108, 115], [], [[97]]⟩ ≠ hash_capture ⟨[108, 115], [], [[98]]⟩ :=
  ⟨fingerprint_deterministic_byte_sensitive.1 _ _ rfl rfl,
   fingerprint_deterministic_byte_sensitive.2 [108, 115] [] [] [] [] [] [] 97 98
     (by decide) (by decide) (by decide) (by decide) (by decide) (by decide)⟩

/-! ## apply_update lemmas -/

lemma apply_update_getElem {s : AppState} {u : PaneUpdate} {pane : PaneState}
    (h : s.panes[u.index]? = some pane) :
    (apply_update s u).panes[u.index]? = some (applyToPane pane u) := by
  have hlt : u.index < s.panes.length := (List.getElem?_eq_some.mp h).1
  simp [apply_update, h, List.getElem?_set, hlt]

lemma applyToPane_capture {pane : PaneState} {u : PaneUpdate} {c : PaneCapture}
    (hc : u.capture = some c) :
    applyToPane pane u =
      { pane with
        status := u.status
        error := u.error
        last_update := some u.at'
        last_hash := some (hash_capture c)
        last_capture := some c
        last_change :=
          if pane.last_hash = some (hash_capture c) then pane.last_change
          else some u.at' } := by
  unfold applyToPane
  rw [hc]
  cases hlh : pane.last_hash with
  | none => simp [hlh]
  | some h0 =>
    by_cases he : h0 = hash_capture c
    · simp [hlh, he]
    · simp [hlh, he]

/-- C1: `apply_update` with a capture: if the capture's fingerprint differs
from the stored one (or none is stored yet), last-change becomes the update's
timestamp, otherwise it is untouched; in both cases the stored fingerprint and
capture are replaced, and status/error/last-update come from the update. -/
theorem apply_update_capture_change_detection (s : AppState) (u : PaneUpdate)
    (c : PaneCapture) (pane : PaneState) (hidx : s.panes[u.index]? = some pane)
    (hc : u.capture = some c) :
    (apply_update s u).panes[u.index]? = some
      { pane with
        status := u.status
        error := u.error
        last_update := some u.at'
        last_hash := some (hash_capture c)
        last_capture := some c
        last_change :=
          if pane.last_hash = some (hash_capture c) then pane.last_change
          else some u.at' } := by
  rw [apply_update_getElem hidx, applyToPane_capture hc]

/-- Sample tracked pane for the concrete witnesses. -/
def demoTracked : TrackedPane := ⟨"db1", "main", 0, "%1", none⟩

/-- Freshly constructed pane state, as at supervisor start. -/
def demoPane : PaneState := ⟨demoTracked, PaneStatus.Stale, none, none, none, none, none⟩

/-- Sample capture. -/
def demoCap : PaneCapture := ⟨[108, 115], [116], [[104, 105]]⟩

/-- C1 witness: a first update with a capture on a fresh pane (no stored
fingerprint). -/
theorem apply_update_capture_change_detection_witness :
    (apply_update ⟨[demoPane], 750⟩ ⟨0, some demoCap, PaneStatus.Ok, none, 42⟩).panes[(0 : Nat)]? =
      some
        { demoPane with
          status := PaneStatus.Ok
          error := none
          last_update := some 42
          last_hash := some (hash_capture demoCap)
          last_capture := some demoCap
          last_change :=
            if demoPane.last_hash = some (hash_capture demoCap) then demoPane.last_change
            else some 42 } :=
  apply_update_capture_change_detection ⟨[demoPane], 750⟩
    ⟨0, some demoCap, PaneStatus.Ok, none, 42⟩ demoCap demoPane rfl rfl

/-- C10: the title is excluded from the fingerprint; consequently a second
`apply_update` whose capture agrees with the stored one on command and lines
(title arbitrary) leaves last-change exactly as the first update left it. -/
theorem fingerprint_ignores_title :
    (∀ (cmd t t' : List Nat) (lines : List (List Nat)),
      hash_capture ⟨cmd, t, lines⟩ = hash_capture ⟨cmd, t', lines⟩) ∧
    (∀ (s : AppState) (u u' : PaneUpdate) (c c' : PaneCapture) (pane : PaneState),
      s.panes[u.index]? = some pane → u.capture = some c → u'.capture = some c' →
      u'.index = u.index → c'.command = c.command → c'.lines = c.lines →
      ∀ q1 q2, (apply_update s u).panes[u.index]? = some q1 →
        (apply_update (apply_update s u) u').panes[u.index]? = some q2 →
        q2.last_change = q1.last_change) := by
  constructor
  · intro cmd t t' lines
    exact hash_capture_congr rfl rfl
  · intro s u u' c c' pane hidx hc hc' hidx' hcmd hlines q1 q2 hq1 hq2
    have hhash : hash_capture c' = hash_capture c := hash_capture_congr hcmd hlines
    have h1 : (apply_update s u).panes[u.index]? = some (applyToPane pane u) :=
      apply_update_getElem hidx
    have hq1' : q1 = applyToPane pane u := by
      rw [h1] at hq1; exact (Option.some.injEq _ _ ▸ hq1 :).symm
    have h1' : (apply_update s u).panes[u'.index]? = some q1 := by
      rw [hidx', hq1', h1]
    have h2 : (apply_update (apply_update s u) u').panes[u'.index]? =
        some (applyToPane q1 u') := apply_update_getElem h1'
    rw [hidx'] at h2
    rw [h2] at hq2
    have hq2' : q2 = applyToPane q1 u' := by
      exact (Option.some.injEq _ _ ▸ hq2 :).symm
    have hq1hash : q1.last_hash = some (hash_capture c) := by
      rw [hq1', applyToPane_capture hc]
    rw [hq2', applyToPane_capture hc', hq1hash, hhash]
    simp

/-- Same command and lines as `demoCap`, different title. -/
def demoCapT : PaneCapture := ⟨[108, 115], [120], [[104, 105]]⟩

/-- First sample update (carries `demoCap`). -/
def demoU : PaneUpdate := ⟨0, some demoCap, PaneStatus.Ok, none, 42⟩

/-- Second sample update (carries `demoCapT`, which differs from `demoCap`
only in the title). -/
def demoU' : PaneUpdate := ⟨0, some demoCapT, PaneStatus.Ok, none, 99⟩

/-- C10 witness. -/
theorem fingerprint_ignores_title_witness :
    hash_capture ⟨[108, 115], [116], [[104, 105]]⟩ =
      hash_capture ⟨[108, 115], [120], [[104, 105]]⟩ ∧
    (applyToPane (applyToPane demoPane demoU) demoU').last_change =
      (applyToPane demoPane demoU).last_change :=
  ⟨fingerprint_ignores_title.1 [108, 115] [116] [120] [[104, 105]],
   fingerprint_ignores_title.2 ⟨[demoPane], 750⟩ demoU demoU' demoCap demoCapT demoPane
     rfl rfl rfl rfl rfl rfl
     (applyToPane demoPane demoU) (applyToPane (applyToPane demoPane demoU) demoU')
     rfl rfl⟩

/-- C2: after a `refresh_stale` sweep a Down pane is entirely unchanged, and
every other pane's status becomes Stale when it has never been updated or its
last update is older than twice the refresh interval, Ok otherwise (no other
field is touched). -/
theorem refresh_stale_sweep (s : AppState) (now : Nat) (i : Nat) (pane : PaneState)
    (hr : s.refresh_ms * 2 < U64) (hidx : s.panes[i]? = some pane) :
    (pane.status = PaneStatus.Down → (refresh_stale s now).panes[i]? = some pane) ∧
    (pane.status ≠ PaneStatus.Down →
      (refresh_stale s now).panes[i]? = some
        { pane with status :=
            match pane.last_update with
            | none => PaneStatus.Stale
            | some last =>
              if now - last > 2 * s.refresh_ms then PaneStatus.Stale
              else PaneStatus.Ok }) := by
  have hmin : min (s.refresh_ms * 2) (U64 - 1) = s.refresh_ms * 2 := by
    apply min_eq_left
    omega
  have hcomm : 2 * s.refresh_ms = s.refresh_ms * 2 := Nat.mul_comm _ _
  constructor
  · intro hst
    simp [refresh_stale, List.getElem?_map, hidx, hst]
  · intro hst
    simp only [refresh_stale, List.getElem?_map, hidx, Option.map_some', hmin, hcomm]
    rw [if_neg hst]
    cases hlu : pane.last_update with
    | none => simp [hlu]
    | some last =>
      simp only [hlu]
      by_cases hlt : now - last > s.refresh_ms * 2
      · rw [if_pos hlt, if_pos hlt]
      · rw [if_neg hlt, if_neg hlt]

/-- Ok pane whose last update was at time 0. -/
def demoPaneOk : PaneState :=
  { demoPane with status := PaneStatus.Ok, last_update := some 0 }

/-- Down pane whose last update was at time 0. -/
def demoPaneDown : PaneState :=
  { demoPane with status := PaneStatus.Down, last_update := some 0 }

/-- C2 witness: with refresh 750ms and a sweep at t=2000ms, an Ok pane last
updated at t=0 turns Stale (2000 > 1500) while a Down pane is untouched. -/
theorem refresh_stale_sweep_witness :
    (refresh_stale ⟨[demoPaneDown], 750⟩ 2000).panes[(0 : Nat)]? = some demoPaneDown ∧
    (refresh_stale ⟨[demoPaneOk], 750⟩ 2000).panes[(0 : Nat)]? =
      some { demoPaneOk with status := PaneStatus.Stale } :=
  ⟨(refresh_stale_sweep ⟨[demoPaneDown], 750⟩ 2000 0 demoPaneDown (by norm_num [U64]) rfl).1
      rfl,
   (refresh_stale_sweep ⟨[demoPaneOk], 750⟩ 2000 0 demoPaneOk (by norm_num [U64]) rfl).2
      (by decide)⟩

/-- C9: `activity_state` is a pure function of the stored pane state and the
current time: Quiet when status is not Ok or no change was ever recorded;
otherwise Active when the age is within the active window, Idle when the age
has reached the idle threshold, Quiet in the gap between the two. -/
theorem activity_state_characterization (p : PaneState) (now aw ia : Nat) :
    ((p.status ≠ PaneStatus.Ok ∨ p.last_change = none) →
      p.activityState now aw ia = ActivityState.Quiet) ∧
    (∀ last, p.status = PaneStatus.Ok → p.last_change = some last →
      ((now - last ≤ aw → p.activityState now aw ia = ActivityState.Active) ∧
       (aw < now - last → ia ≤ now - last →
         p.activityState now aw ia = ActivityState.Idle) ∧
       (aw < now - last → now - last < ia →
         p.activityState now aw ia = ActivityState.Quiet))) := by
  unfold PaneState.activityState activity_state
  constructor
  · rintro (hst | hlc)
    · simp [hst]
    · by_cases hok : p.status = PaneStatus.Ok
      · simp [hok, hlc]
      · simp [hok]
  · intro last hok hlc
    simp only [hok, ne_eq, not_true_eq_false, if_false, hlc]
    refine ⟨fun h1 => ?_, fun h1 h2 => ?_, fun h1 h2 => ?_⟩
    · simp [h1]
    · rw [if_neg (by omega), if_pos h2]
    · rw [if_neg (by omega), if_neg (by omega)]

/-- Ok pane whose last recorded content change was at time 0. -/
def demoPaneChange : PaneState := { demoPaneOk with last_change := some 0 }

/-- C9 witness: with active window 10 and idle threshold 20, ages 5 / 100 / 15
give Active / Idle / Quiet, and a non-Ok pane is Quiet. -/
theorem activity_state_characterization_witness :
    demoPane.activityState 5 10 20 = ActivityState.Quiet ∧
    demoPaneChange.activityState 5 10 20 = ActivityState.Active ∧
    demoPaneChange.activityState 100 10 20 = ActivityState.Idle ∧
    demoPaneChange.activityState 15 10 20 = ActivityState.Quiet :=
  ⟨(activity_state_characterization demoPane 5 10 20).1 (Or.inl (by decide)),
   ((activity_state_characterization demoPaneChange 5 10 20).2 0 rfl rfl).1 (by decide),
   ((activity_state_characterization demoPaneChange 100 10 20).2 0 rfl rfl).2.1
     (by decide) (by decide),
   ((activity_state_characterization demoPaneChange 15 10 20).2 0 rfl rfl).2.2
     (by decide) (by decide)⟩

/-! ## Resolver lemmas -/

lemma resolveLoop_first_success (name : String) (reachable : String → Bool) (now : Nat)
    (cache : Cache) :
    ∀ pre t post, (∀ x ∈ pre, reachable x = false) → reachable t = true →
      resolveLoop name (pre ++ t :: post) reachable now cache =
        ⟨Except.ok t, cacheInsert cache name ⟨t, now⟩, pre ++ [t]⟩ := by
  intro pre
  induction pre with
  | nil =>
    intro t post _ ht
    simp [resolveLoop, ht]
  | cons x pre ih =>
    intro t post hpre ht
    have hx : reachable x = false := hpre x (List.mem_cons_self x pre)
    have hpre' : ∀ y ∈ pre, reachable y = false :=
      fun y hy => hpre y (List.mem_cons_of_mem x hy)
    simp [resolveLoop, hx, ih t post hpre' ht]

lemma resolveLoop_all_fail (name : String) (reachable : String → Bool) (now : Nat)
    (cache : Cache) :
    ∀ targets, (∀ x ∈ targets, reachable x = false) →
      resolveLoop name targets reachable now cache =
        ⟨Except.error ("No reachable targets for host " ++ name), cache, targets⟩ := by
  intro targets
  induction targets with
  | nil => intro _; rfl
  | cons x rest ih =>
    intro hall
    have hx : reachable x = false := hall x (List.mem_cons_self x rest)
    have hrest : ∀ y ∈ rest, reachable y = false :=
      fun y hy => hall y (List.mem_cons_of_mem x hy)
    simp [resolveLoop, hx, ih hrest]

lemma resolve_target_of_miss {cache : Cache} {host : HostConfig} {reachable : String → Bool}
    {now : Nat}
    (hmiss : ∀ entry, cacheGet cache host.name = some entry →
      CACHE_TTL ≤ now - entry.checked_at) :
    resolve_target cache host reachable now =
      resolveLoop host.name host.targets reachable now cache := by
  cases hget : cacheGet cache host.name with
  | none => simp only [resolve_target, hget]
  | some entry =>
    have hold := hmiss entry hget
    simp only [resolve_target, hget]
    rw [if_neg (by omega)]

/-- C3: a cache entry for the host younger than the 60s TTL is returned as-is
with no probe performed (the probed list is empty and the cache is unchanged);
otherwise the candidates are probed in declared order and the first reachable
one is returned and cached with the current time. -/
theorem resolve_target_cache_and_order (cache : Cache) (host : HostConfig)
    (reachable : String → Bool) (now : Nat) :
    (∀ entry, cacheGet cache host.name = some entry →
      now - entry.checked_at < CACHE_TTL →
      resolve_target cache host reachable now = ⟨Except.ok entry.target, cache, []⟩) ∧
    ((∀ entry, cacheGet cache host.name = some entry →
        CACHE_TTL ≤ now - entry.checked_at) →
      ∀ pre t post, host.targets = pre ++ t :: post →
        (∀ x ∈ pre, reachable x = false) → reachable t = true →
        resolve_target cache host reachable now =
          ⟨Except.ok t, cacheInsert cache host.name ⟨t, now⟩, pre ++ [t]⟩) := by
  constructor
  · intro entry hget hfresh
    simp only [resolve_target, hget]
    rw [if_pos hfresh]
  · intro hmiss pre t post htargets hpre ht
    rw [resolve_target_of_miss hmiss, htargets]
    exact resolveLoop_first_success host.name reachable now cache pre t post hpre ht

/-- C5: when no cache entry is usable and every candidate probe fails, the
resolve fails with an error naming the host and the cache is exactly as
before (and every candidate was probed, in order). -/
theorem resolve_target_failure_preserves_cache (cache : Cache) (host : HostConfig)
    (reachable : String → Bool) (now : Nat)
    (hmiss : ∀ entry, cacheGet cache host.name = some entry →
      CACHE_TTL ≤ now - entry.checked_at)
    (hfail : ∀ t ∈ host.targets, reachable t = false) :
    resolve_target cache host reachable now =
      ⟨Except.error ("No reachable targets for host " ++ host.name), cache,
        host.targets⟩ := by
  rw [resolve_target_of_miss hmiss]
  exact resolveLoop_all_fail host.name reachable now cache host.targets hfail

/-- C3 witness: a fresh cache entry short-circuits probing; with an empty
cache and targets [a,b] where only b is reachable, b is returned and cached
and exactly [a,b] were probed, in order. -/
theorem resolve_target_cache_and_order_witness :
    resolve_target [("db1", ⟨"b", 100⟩)] ⟨"db1", ["a", "b"]⟩ (fun t => t == "b") 200 =
      ⟨Except.ok "b", [("db1", ⟨"b", 100⟩)], []⟩ ∧
    resolve_target [] ⟨"db1", ["a", "b"]⟩ (fun t => t == "b") 5 =
      ⟨Except.ok "b", [("db1", ⟨"b", 5⟩)], ["a", "b"]⟩ :=
  ⟨(resolve_target_cache_and_order [("db1", ⟨"b", 100⟩)] ⟨"db1", ["a", "b"]⟩
      (fun t => t == "b") 200).1 ⟨"b", 100⟩ rfl (by decide),
   (resolve_target_cache_and_order [] ⟨"db1", ["a", "b"]⟩ (fun t => t == "b") 5).2
      (fun entry h => nomatch h) ["a"] "b" [] rfl (by decide) (by decide)⟩

/-- C5 witness: an expired entry plus two unreachable candidates yields the
host-naming error and leaves the cache exactly as it was. -/
theorem resolve_target_failure_preserves_cache_witness :
    resolve_target [("db1", ⟨"a", 0⟩)] ⟨"db1", ["a", "b"]⟩ (fun _ => false) 60000 =
      ⟨Except.error ("No reachable targets for host " ++ "db1"),
        [("db1", ⟨"a", 0⟩)], ["a", "b"]⟩ :=
  resolve_target_failure_preserves_cache [("db1", ⟨"a", 0⟩)] ⟨"db1", ["a", "b"]⟩
    (fun _ => false) 60000
    (by
      intro entry h
      have h' : some (CacheEntry.mk "a" 0) = some entry := h
      cases h'
      decide)
    (by decide)

/-! ## Parsing lemmas -/

lemma splitNl_cons (b : Nat) (bs : List Nat) :
    splitNl (b :: bs) =
      if b = 10 then [] :: splitNl bs
      else (b :: (splitNl bs).headD []) :: (splitNl bs).tail := rfl

lemma splitNl_line (l : List Nat) (hl : ∀ b ∈ l, b ≠ 10) (rest : List Nat) :
    splitNl (l ++ 10 :: rest) = l :: splitNl rest := by
  induction l with
  | nil => simp [splitNl_cons]
  | cons b l ih =>
    have hb : b ≠ 10 := hl b (List.mem_cons_self b l)
    have hl' : ∀ x ∈ l, x ≠ 10 := fun x hx => hl x (List.mem_cons_of_mem b hx)
    rw [List.cons_append, splitNl_cons, if_neg hb, ih hl']
    rfl

lemma splitNl_linesJoin (ls : List (List Nat)) (h : ∀ l ∈ ls, ∀ b ∈ l, b ≠ 10) :
    splitNl (linesJoin ls) = ls ++ [[]] := by
  induction ls with
  | nil => rfl
  | cons l ls ih =>
    have hj : linesJoin (l :: ls) = l ++ 10 :: linesJoin ls := by
      simp [linesJoin]
    rw [hj, splitNl_line l (fun b hb => h l (List.mem_cons_self l ls) b hb),
      ih (fun x hx b hb => h x (List.mem_cons_of_mem l hx) b hb)]
    rfl

lemma stripCr_id {l : List Nat} (h : ∀ b ∈ l, b ≠ 13) : stripCr l = l := by
  unfold stripCr
  by_cases h13 : l.getLast? = some 13
  · exact absurd rfl (h 13 (List.mem_of_mem_getLast? h13))
  · rw [if_neg h13]

lemma map_stripCr_id (ls : List (List Nat)) (h : ∀ l ∈ ls, ∀ b ∈ l, b ≠ 13) :
    ls.map stripCr = ls := by
  induction ls with
  | nil => rfl
  | cons l ls ih =>
    rw [List.map_cons, stripCr_id (h l (List.mem_cons_self l ls)),
      ih (fun x hx b hb => h x (List.mem_cons_of_mem l hx) b hb)]

/-- Feeding `rustLines` a text in which every line is `'\n'`-terminated and no
line contains a terminator byte returns exactly those lines. -/
lemma rustLines_linesJoin (ls : List (List Nat))
    (h : ∀ l ∈ ls, ∀ b ∈ l, b ≠ 10 ∧ b ≠ 13) :
    rustLines (linesJoin ls) = ls := by
  unfold rustLines
  rw [splitNl_linesJoin ls (fun l hl b hb => (h l hl b hb).1)]
  simp only [List.getLast?_concat, List.dropLast_concat]
  exact map_stripCr_id ls (fun l hl b hb => (h l hl b hb).2)

/-- C7: parsing a capture output whose first line is the header and whose
remaining lines are the body yields the header's first two tab fields as
command and title (missing fields default to empty) and the body verbatim —
blank lines included, only the line terminators removed. -/
theorem parse_capture_fields_and_verbatim_lines (hdr : List Nat) (ls : List (List Nat))
    (hhdr : ∀ b ∈ hdr, b ≠ 10 ∧ b ≠ 13)
    (hls : ∀ l ∈ ls, ∀ b ∈ l, b ≠ 10 ∧ b ≠ 13) :
    parse_capture (linesJoin (hdr :: ls)) =
      { command := (splitTab hdr).headD []
        title := ((splitTab hdr).drop 1).headD []
        lines := ls } := by
  have hall : ∀ l ∈ hdr :: ls, ∀ b ∈ l, b ≠ 10 ∧ b ≠ 13 := by
    intro l hl
    rcases List.mem_cons.mp hl with rfl | hl
    · exact hhdr
    · exact hls l hl
  unfold parse_capture
  rw [rustLines_linesJoin _ hall]
  rfl

/-- Header "bash\ttitle" as bytes. -/
def demoHeader : List Nat := [98, 97, 115, 104, 9, 116, 105, 116, 108, 101]

/-- Body with a blank line in the middle. -/
def demoBody : List (List Nat) := [[111, 107], [], [101, 110, 100]]

/-- C7 witness. -/
theorem parse_capture_fields_and_verbatim_lines_witness :
    parse_capture (linesJoin (demoHeader :: demoBody)) =
      { command := (splitTab demoHeader).headD []
        title := ((splitTab demoHeader).drop 1).headD []
        lines := demoBody } :=
  parse_capture_fields_and_verbatim_lines demoHeader demoBody (by decide) (by decide)

lemma splitTab_ne_nil (l : List Nat) : splitTab l ≠ [] := by
  cases l with
  | nil => exact fun h => nomatch h
  | cons b bs =>
    show (if b = 9 then _ else _) ≠ []
    split <;> exact fun h => nomatch h

lemma splitTab_headD (l : List Nat) : (splitTab l)[0]? = some ((splitTab l).headD []) := by
  cases hsp : splitTab l with
  | nil => exact absurd hsp (splitTab_ne_nil l)
  | cons a t => simp

/-- C8: list parsing never fails: over any sequence of lines, every
well-formed line contributes exactly one entry in input order and every
malformed line is dropped individually without disturbing the others; a line
is malformed exactly when its first field is empty, its second field does not
parse as a u32, or its third field is missing or empty. -/
theorem parse_lists_skip_malformed (ls : List (List Nat))
    (h : ∀ l ∈ ls, ∀ b ∈ l, b ≠ 10 ∧ b ≠ 13) :
    parse_pane_list (linesJoin ls) = ls.filterMap parsePaneLine ∧
    parse_window_list (linesJoin ls) = ls.filterMap parseWindowLine ∧
    (∀ pre bad post, ls = pre ++ bad :: post → parsePaneLine bad = none →
      parse_pane_list (linesJoin ls) =
        pre.filterMap parsePaneLine ++ post.filterMap parsePaneLine) ∧
    (∀ line, parsePaneLine line = none ↔
      ((splitTab line).headD [] = [] ∨
        ((splitTab line)[1]?).bind parseU32 = none ∨
        ((splitTab line)[2]?).getD [] = [])) := by
  have h1 : parse_pane_list (linesJoin ls) = ls.filterMap parsePaneLine := by
    unfold parse_pane_list
    rw [rustLines_linesJoin ls h]
  refine ⟨h1, ?_, ?_, ?_⟩
  · unfold parse_window_list
    rw [rustLines_linesJoin ls h]
  · intro pre bad post hsplit hbad
    rw [h1, hsplit, List.filterMap_append, List.filterMap_cons_none hbad]
  · intro line
    rcases h0 : (splitTab line)[0]? with _ | s0
    · exact absurd (splitTab_headD line ▸ h0) (by simp)
    · have hhead : (splitTab line).headD [] = s0 := by
        have := splitTab_headD line
        rw [h0] at this
        exact (Option.some.injEq _ _ ▸ this.symm :)
      unfold parsePaneLine
      simp only [h0]
      rw [hhead]
      by_cases hs0 : s0 = []
      · simp [hs0]
      · rw [if_neg hs0]
        rcases h1' : ((splitTab line)[1]?).bind parseU32 with _ | w
        · simp [hs0]
        · rcases h2 : (splitTab line)[2]? with _ | pid
          · simp [hs0, h1', h2]
          · by_cases hpid : pid = []
            · simp [hs0, h1', h2, hpid]
            · simp [hs0, h1', h2, hpid]

/-- Sample list-panes output lines: a valid line, an empty line, a line with
an unparsable window index, and another valid line. -/
def demoListLines : List (List Nat) :=
  [[115, 9, 49, 9, 112], [], [115, 9, 120, 9, 112], [115, 9, 50, 9, 113]]

/-- C8 witness. -/
theorem parse_lists_skip_malformed_witness :
    parse_pane_list (linesJoin demoListLines) = demoListLines.filterMap parsePaneLine ∧
    parse_window_list (linesJoin demoListLines) =
      demoListLines.filterMap parseWindowLine :=
  ⟨(parse_lists_skip_malformed demoListLines (by decide)).1,
   (parse_lists_skip_malformed demoListLines (by decide)).2.1⟩
